import Mathlib

/-!
Verification of the prefect_exercise pipeline core: a shallow embedding of the
job-chain execution engine (src/jobs/base.py, src/prefect_pipeline/pipeline/flows.py),
the work queue (src/database/models.py) and the parallel execution overlay
(src/prefect_pipeline/pipeline/parallel.py), together with theorems settling the
spec claims about them.

Conventions: Python exceptions are modelled as `Except.error` carrying `str(e)`;
timestamps are abstract `Nat` clock values; database rows are records in a list.
-/

/-! ## Data model (src/database/models.py) -/

/-- InputStatus: status of a pipeline input. -/
inductive InputStatus where
  | pending
  | processing
  | completed
  | failed
deriving DecidableEq, Repr

/-- A row of the `pipeline_inputs` table (class PipelineInput). -/
structure PipelineInput where
  id : Nat
  file_path : String
  status : InputStatus
  priority : Int
  created_at : Nat
  started_at : Option Nat
  completed_at : Option Nat
  error_message : Option String
  result_batch_id : Option Nat
deriving DecidableEq, Repr

/-- The ORDER BY of PipelineInput.get_pending: priority descending, then
created_at ascending. -/
def pendingOrder (a b : PipelineInput) : Prop :=
  b.priority < a.priority ∨ (a.priority = b.priority ∧ a.created_at ≤ b.created_at)

instance : DecidableRel pendingOrder := fun a b =>
  inferInstanceAs (Decidable (b.priority < a.priority ∨
    (a.priority = b.priority ∧ a.created_at ≤ b.created_at)))

instance : IsTotal PipelineInput pendingOrder :=
  ⟨by intro a b; unfold pendingOrder; omega⟩

instance : IsTrans PipelineInput pendingOrder :=
  ⟨by intro a b c hab hbc; unfold pendingOrder at *; omega⟩

/-- PipelineInput.get_pending: pending rows ordered by priority descending then
created_at ascending; the cap is applied under `if limit:`, i.e. only when
`limit` is truthy (present and nonzero). -/
def get_pending (db : List PipelineInput) (limit : Option Nat) : List PipelineInput :=
  let query := List.insertionSort pendingOrder
    (db.filter fun x => x.status = InputStatus.pending)
  match limit with
  | none => query
  | some l => if l = 0 then query else query.take l

/-- Row lookup by primary key, as peewee's get_by_id / save-by-id address rows. -/
def find_by_id (db : List PipelineInput) (i : Nat) : Option PipelineInput :=
  db.find? fun x => x.id = i

/-- Status of the row with the given id, if present. -/
def statusOf (db : List PipelineInput) (i : Nat) : Option InputStatus :=
  (find_by_id db i).map (·.status)

/-- Row transformer of mark_processing: the row with the given id gets status
processing and started_at set to the current clock. -/
def markRow (i t : Nat) (x : PipelineInput) : PipelineInput :=
  if x.id = i then { x with status := InputStatus.processing, started_at := some t } else x

/-- PipelineInput.mark_processing, applied to the row with the given id. -/
def mark_processing (db : List PipelineInput) (i : Nat) (t : Nat) : List PipelineInput :=
  db.map (markRow i t)

/-- PipelineInput.mark_completed on one row (called with no result_batch_id). -/
def mark_completed (x : PipelineInput) (t : Nat) : PipelineInput :=
  { x with status := InputStatus.completed, completed_at := some t, result_batch_id := none }

/-- PipelineInput.mark_failed on one row. -/
def mark_failed (x : PipelineInput) (e : String) (t : Nat) : PipelineInput :=
  { x with status := InputStatus.failed, completed_at := some t, error_message := some e }

/-! ## Jobs (src/jobs/base.py) -/

/-- JobResult: result wrapper for job execution. The Python `output` may be None
(`none` here); timestamps and metadata are omitted — no claim refers to them. -/
structure JobResult (α : Type) where
  success : Bool
  output : Option α
  error : Option String
deriving DecidableEq, Repr

/-- BaseJob.execute, instrumented: the Bool records whether single_job was
invoked. validate_input and single_job are modelled as fallible functions whose
`Except.error` is a raised exception with message `str(e)`. -/
def executeT (validate_input : α → Except String β) (single_job : β → Except String γ)
    (raw_input : α) : JobResult γ × Bool :=
  match validate_input raw_input with
  | Except.error e => (⟨false, none, some e⟩, false)
  | Except.ok v =>
    match single_job v with
    | Except.error e => (⟨false, none, some e⟩, true)
    | Except.ok out => (⟨true, some out, none⟩, true)

/-- BaseJob.execute: validate then run, any exception becoming a failed JobResult. -/
def execute (validate_input : α → Except String β) (single_job : β → Except String γ)
    (raw_input : α) : JobResult γ :=
  (executeT validate_input single_job raw_input).1

/-! ## Chain definition and range resolution (flows.py PipelineDefinition) -/

/-- Errors raised by range resolution: ValueError "Unknown job: ..." from
get_job_index and ValueError "start_from ... must come before stop_after ..."
from get_jobs_in_range, distinguished by their message class. -/
inductive RangeError where
  | unknownStep (name : String)
  | invalidRange (startIdx stopIdx : Nat)
deriving DecidableEq, Repr

/-- PipelineDefinition.get_job_index: the _job_index dict maps each job name to
its insertion index; add_job keeps names unique, so the dict value is the index
of the name in the ordered job list. -/
def get_job_index (jobs : List String) (name : String) : Except RangeError Nat :=
  if name ∈ jobs then Except.ok (jobs.indexOf name)
  else Except.error (RangeError.unknownStep name)

/-- Start index resolution: 0 if start_from is None else get_job_index(start_from). -/
def resolveStart (jobs : List String) : Option String → Except RangeError Nat
  | none => Except.ok 0
  | some n => get_job_index jobs n

/-- Stop index resolution: len(jobs) - 1 if stop_after is None else get_job_index(stop_after). -/
def resolveStop (jobs : List String) : Option String → Except RangeError Nat
  | none => Except.ok (jobs.length - 1)
  | some n => get_job_index jobs n

/-- PipelineDefinition.get_jobs_in_range: returns [] at once on an empty chain,
otherwise resolves both endpoints, rejects a reversed range, and returns the
inclusive slice `self._jobs[start_idx:stop_idx + 1]`. -/
def get_jobs_in_range (jobs : List String) (start_from stop_after : Option String) :
    Except RangeError (List String) :=
  if jobs = [] then Except.ok []
  else
    match resolveStart jobs start_from with
    | Except.error e => Except.error e
    | Except.ok start_idx =>
      match resolveStop jobs stop_after with
      | Except.error e => Except.error e
      | Except.ok stop_idx =>
        if start_idx > stop_idx then
          Except.error (RangeError.invalidRange start_idx stop_idx)
        else Except.ok ((jobs.drop start_idx).take (stop_idx + 1 - start_idx))

/-! ## Sequential runner (flows.py run_pipeline) -/

/-- One step of the pipeline as run_pipeline sees it: make_job_task wraps
spec.create_instance().execute, a function from the current Python value to a
JobResult. -/
def Job (α : Type) := Option α → JobResult α

/-- The for-spec-in-jobs_to_run loop of run_pipeline, instrumented with the
list of executed step indices. `last` is the `result` variable carried across
iterations; on a failed result the loop returns it at once. -/
def runJobsT : List (Job α) → Option α → JobResult α → Nat → JobResult α × List Nat
  | [], _, last, _ => (last, [])
  | j :: rest, cur, _, idx =>
    if (j cur).success then
      ((runJobsT rest (j cur).output (j cur) (idx + 1)).1,
       idx :: (runJobsT rest (j cur).output (j cur) (idx + 1)).2)
    else (j cur, [idx])

/-- Model of run_pipeline with its execution trace: an empty resolved range returns
JobResult(success=True, output=input_data); otherwise the loop runs. -/
def run_pipelineT (jobs : List (Job α)) (input_data : Option α) : JobResult α × List Nat :=
  if jobs.isEmpty then (⟨true, input_data, none⟩, [])
  else runJobsT jobs input_data ⟨true, input_data, none⟩ 0

/-- run_pipeline: the returned JobResult. -/
def run_pipeline (jobs : List (Job α)) (input_data : Option α) : JobResult α :=
  (run_pipelineT jobs input_data).1

/-- The value threaded through a list of steps when every step succeeds
(`current_data = result.output`); `none` when some step fails. Used to state
theorems about the loop. -/
def threadSteps : List (Job α) → Option α → Option (Option α)
  | [], cur => some cur
  | j :: rest, cur =>
    if (j cur).success then threadSteps rest (j cur).output else none

/-! ## Parallel executor (parallel.py) -/

/-- The per-item result dict as the dispatcher sees it: file_path, success,
error (timestamps and output reference omitted — no claim refers to them). -/
structure WorkerResult where
  file_path : String
  success : Bool
  error : Option String
deriving DecidableEq, Repr

/-- Aggregate returned by run_parallel_from_files (timestamps omitted). -/
structure ParallelExecutionResult where
  total : Nat
  succeeded : Nat
  failed : Nat
  results : List WorkerResult
deriving DecidableEq, Repr

/-- One iteration of the for-future-in-as_completed loop: fetch the worker's
result (an exception from future.result() is caught and converted to a failed
dict), append it, bump succeeded or failed, and invoke the progress callback
with the 1-based completion count and the batch size. The accumulator is
(results, succeeded, failed, callback invocations). -/
def completeOne (file_paths : List String) (worker : String → Except String WorkerResult)
    (acc : List WorkerResult × Nat × Nat × List (Nat × Nat)) (k : Nat) :
    List WorkerResult × Nat × Nat × List (Nat × Nat) :=
  (acc.1 ++ [match worker (file_paths.getD k "") with
    | Except.ok r => r
    | Except.error e => ⟨file_paths.getD k "", false, some e⟩],
   (if (match worker (file_paths.getD k "") with
    | Except.ok r => r
    | Except.error e => ⟨file_paths.getD k "", false, some e⟩ : WorkerResult).success
    then acc.2.1 + 1 else acc.2.1),
   (if (match worker (file_paths.getD k "") with
    | Except.ok r => r
    | Except.error e => ⟨file_paths.getD k "", false, some e⟩ : WorkerResult).success
    then acc.2.2.1 else acc.2.2.1 + 1),
   acc.2.2.2 ++ [(acc.2.2.2.length + 1, file_paths.length)])

/-- Model of run_parallel_from_files: an empty input list returns the all-zero
result at once; otherwise every submitted item is consumed exactly once, in
completion order (`order`, a permutation of the submission indices), and
aggregated. The worker is abstract: `Except.error` is a raised exception the
dispatcher catches. Returns the ParallelExecutionResult together with the list
of progress-callback invocations (completed, total). -/
def run_parallel_from_files (file_paths : List String)
    (worker : String → Except String WorkerResult) (order : List Nat) :
    ParallelExecutionResult × List (Nat × Nat) :=
  if file_paths = [] then (⟨0, 0, 0, []⟩, [])
  else
    (⟨file_paths.length,
      (order.foldl (completeOne file_paths worker) ([], 0, 0, [])).2.1,
      (order.foldl (completeOne file_paths worker) ([], 0, 0, [])).2.2.1,
      (order.foldl (completeOne file_paths worker) ([], 0, 0, [])).1⟩,
     (order.foldl (completeOne file_paths worker) ([], 0, 0, [])).2.2.2)

/-! ## Queue-sourced run: claim phase and finalize phase (parallel.py) -/

/-- Python `result["error"] or "Unknown error"`: the `or` falls through on the
falsy values None and the empty string. -/
def errorOrUnknown : Option String → String
  | none => "Unknown error"
  | some s => if s = "" then "Unknown error" else s

/-- Row transformer of the finalize path: the row with the matching id is
marked completed or failed from the result dict. -/
def updRow (input_id : Nat) (success : Bool) (error : Option String) (t : Nat)
    (x : PipelineInput) : PipelineInput :=
  if x.id = input_id then
    (if success then mark_completed x t else mark_failed x (errorOrUnknown error) t)
  else x

/-- Model of _update_input_status: PipelineInput.get_by_id(input_id) raises
DoesNotExist when no row has that id, and nothing in the function catches it;
otherwise the fetched row is marked completed or failed and saved. -/
def update_input_status (db : List PipelineInput) (input_id : Nat) (success : Bool)
    (error : Option String) (t : Nat) : Except String (List PipelineInput) :=
  if db.any (fun x => x.id = input_id) then
    Except.ok (db.map (updRow input_id success error t))
  else Except.error "PipelineInputDoesNotExist"

/-- The mark-all-as-processing loop of run_parallel_from_database: each pending
input is marked processing before any worker is dispatched. -/
def mark_all_processing (db : List PipelineInput) (pending : List PipelineInput)
    (t : Nat) : List PipelineInput :=
  pending.foldl (fun d p => mark_processing d p.id t) db

/-- The input_map building loop (`input_map[str(file_path)] = pipeline_input.id`):
a Python dict modelled as a shadowing association list — the most recent binding
for a key wins on lookup. -/
def build_input_map (pending : List PipelineInput) : List (String × Nat) :=
  pending.foldl (fun m p => (p.file_path, p.id) :: m) []

/-- Dict lookup. -/
def map_get (m : List (String × Nat)) (k : String) : Option Nat :=
  (m.find? fun q => q.1 = k).map (·.2)

/-- One db_progress_callback invocation: a result whose file path is in
input_map updates that item's status; otherwise nothing happens. -/
def finalizeStep (m : List (String × Nat)) (t : Nat) (d : List PipelineInput)
    (r : WorkerResult) : Except String (List PipelineInput) :=
  match map_get m r.file_path with
  | some input_id => update_input_status d input_id r.success r.error t
  | none => Except.ok d

/-- The finalize phase: db_progress_callback applied to every completed result
in completion order; a raised DoesNotExist propagates. -/
def finalize_results (db : List PipelineInput) (m : List (String × Nat))
    (results : List WorkerResult) (t : Nat) : Except String (List PipelineInput) :=
  results.foldlM (finalizeStep m t) db

/-! ## The claim step of run_parallel_from_database, as two separate operations -/

/-- One claimer of run_parallel_from_database, split into the separate steps the
code performs: first a get_pending SELECT (no lock, no transaction), then one
mark_processing UPDATE per selected item. -/
structure ClaimerState where
  selected : Option (List Nat)
  to_mark : List Nat
deriving DecidableEq, Repr

/-- One step of a claimer: run its SELECT if it has not selected yet, else mark
its next selected item processing. -/
def claimerStep (db : List PipelineInput) (c : ClaimerState) (t : Nat) :
    List PipelineInput × ClaimerState :=
  match c.selected with
  | none =>
    (db, ⟨some ((get_pending db none).map (·.id)), (get_pending db none).map (·.id)⟩)
  | some _ =>
    match c.to_mark with
    | [] => (db, c)
    | i :: rest => (mark_processing db i t, ⟨c.selected, rest⟩)

/-- Interleave two claimers under a schedule (true = first claimer moves). -/
def runSchedule : List Bool → List PipelineInput × ClaimerState × ClaimerState → Nat →
    List PipelineInput × ClaimerState × ClaimerState
  | [], st, _ => st
  | b :: rest, st, t =>
    if b then
      runSchedule rest
        ((claimerStep st.1 st.2.1 t).1, (claimerStep st.1 st.2.1 t).2, st.2.2) (t + 1)
    else
      runSchedule rest
        ((claimerStep st.1 st.2.2 t).1, st.2.1, (claimerStep st.1 st.2.2 t).2) (t + 1)

/-! ## Concrete instances used by witnesses -/

/-- The single pending work item of the race scenario. -/
def raceItem : PipelineInput := ⟨0, "input.txt", InputStatus.pending, 0, 0, none, none, none, none⟩

/-- The race interleaving: both claimers run their SELECT before either marks. -/
def raceRun : List PipelineInput × ClaimerState × ClaimerState :=
  runSchedule [true, false, true, false] ([raceItem], ⟨none, []⟩, ⟨none, []⟩) 1

/-- Scenario A item 1: priority 5, created first. -/
def c7a : PipelineInput := ⟨1, "a.txt", InputStatus.pending, 5, 0, none, none, none, none⟩

/-- Scenario A item 2: priority 1, created second. -/
def c7b : PipelineInput := ⟨2, "b.txt", InputStatus.pending, 1, 1, none, none, none, none⟩

/-- Scenario A item 3: priority 5, created third. -/
def c7c : PipelineInput := ⟨3, "c.txt", InputStatus.pending, 5, 2, none, none, none, none⟩

/-- Scenario A queue: three items with priorities [5, 1, 5]. -/
def c7db : List PipelineInput := [c7a, c7b, c7c]

/-- A worker for witnesses: succeeds on a.txt, raises otherwise. -/
def workerWit : String → Except String WorkerResult :=
  fun fp => if fp = "a.txt" then Except.ok ⟨"a.txt", true, none⟩
    else Except.error "worker crashed"

/-- A processing row for the C6 witness. -/
def itemW : PipelineInput := ⟨7, "w.txt", InputStatus.processing, 0, 0, some 1, none, none, none⟩

/-- First duplicate-path item (C9 witness). -/
def dupA : PipelineInput := ⟨1, "same.txt", InputStatus.pending, 0, 0, none, none, none, none⟩

/-- Second duplicate-path item (C9 witness): same file_path, later created_at. -/
def dupB : PipelineInput := ⟨2, "same.txt", InputStatus.pending, 0, 1, none, none, none, none⟩

/-- Queue holding the two duplicate-path items. -/
def dupDb : List PipelineInput := [dupA, dupB]

/-- Worker results of the duplicate-path batch: both dispatches succeed. -/
def dupResults : List WorkerResult := [⟨"same.txt", true, none⟩, ⟨"same.txt", true, none⟩]

/-- Database state after the duplicate-path batch is finalized. -/
def dupDb2 : List PipelineInput :=
  (finalize_results (mark_all_processing dupDb (get_pending dupDb none) 10)
    (build_input_map (get_pending dupDb none)) dupResults 20).toOption.getD []

/-- A concrete validate_input for witnesses: rejects 0. -/
def vWit : Nat → Except String Nat :=
  fun n => if n = 0 then Except.error "bad input" else Except.ok n

/-- A concrete single_job for witnesses: raises on 1, else adds one. -/
def sWit : Nat → Except String Nat :=
  fun n => if n = 1 then Except.error "boom" else Except.ok (n + 1)

/-- Witness step 1: succeeds, output = input + 1. -/
def jw1 : Job Nat := fun x => ⟨true, some (x.getD 0 + 1), none⟩

/-- Witness step 2: always fails. -/
def jw2 : Job Nat := fun _ => ⟨false, none, some "step 2 failed"⟩

/-- Witness step 3: succeeds, passes its input through. -/
def jw3 : Job Nat := fun x => ⟨true, x, none⟩

/-! ## Theorems about the queue -/

/-- C7: get_pending returns only pending items, sorted by priority descending then
created_at ascending, capped at a truthy limit; concretely, with priorities
[5, 1, 5], a limit of 2 returns the two priority-5 items in creation order and
the priority-1 item is left out (still pending). -/
theorem get_pending_ordered (db : List PipelineInput) (limit : Option Nat) :
    ((∀ x ∈ get_pending db limit, x.status = InputStatus.pending)
    ∧ List.Sorted pendingOrder (get_pending db limit)
    ∧ (∀ l, limit = some l → l ≠ 0 → (get_pending db limit).length ≤ l))
    ∧ (get_pending c7db (some 2) = [c7a, c7c]
      ∧ c7b.status = InputStatus.pending ∧ c7b ∉ get_pending c7db (some 2)) := by
  refine ⟨?_, by decide⟩
  have hq : ∀ y ∈ List.insertionSort pendingOrder
      (db.filter fun x => x.status = InputStatus.pending),
      y.status = InputStatus.pending := by
    intro y hy
    have hmem := (List.perm_insertionSort pendingOrder
      (db.filter fun x => x.status = InputStatus.pending)).mem_iff.mp hy
    have := List.of_mem_filter hmem
    simp only [decide_eq_true_eq] at this
    exact this
  have hs : List.Sorted pendingOrder (List.insertionSort pendingOrder
      (db.filter fun x => x.status = InputStatus.pending)) :=
    List.sorted_insertionSort pendingOrder _
  refine ⟨?_, ?_, ?_⟩
  · intro x hx
    unfold get_pending at hx
    cases limit with
    | none => exact hq x hx
    | some l =>
      by_cases h0 : l = 0
      · simp only [h0, if_pos rfl] at hx
        exact hq x hx
      · simp only [if_neg h0] at hx
        exact hq x (List.mem_of_mem_take hx)
  · unfold get_pending
    cases limit with
    | none => exact hs
    | some l =>
      by_cases h0 : l = 0
      · simp only [h0, if_pos rfl]
        exact hs
      · simp only [if_neg h0]
        exact List.Pairwise.sublist (List.take_sublist _ _) hs
  · intro l hl h0
    subst hl
    unfold get_pending
    simp only [if_neg h0]
    simp

/-- C10: a limit of 0 is falsy under `if limit:`, so it does not cap the
selection — get_pending with limit 0 equals get_pending with no limit. -/
theorem get_pending_zero_limit (db : List PipelineInput) :
    get_pending db (some 0) = get_pending db none := by
  simp [get_pending]

/-! ## Theorems about jobs and the sequential runner -/

/-- C4: execute always returns a JobResult; any exception raised by
validate_input or single_job is caught and becomes success=false with error set
to its message, and single_job is never invoked when validate_input fails. -/
theorem execute_error_containment (validate_input : α → Except String β)
    (single_job : β → Except String γ) (raw_input : α) :
    (∀ e, validate_input raw_input = Except.error e →
      execute validate_input single_job raw_input = ⟨false, none, some e⟩
      ∧ (executeT validate_input single_job raw_input).2 = false)
    ∧ (∀ v e, validate_input raw_input = Except.ok v → single_job v = Except.error e →
      execute validate_input single_job raw_input = ⟨false, none, some e⟩)
    ∧ (∀ v out, validate_input raw_input = Except.ok v → single_job v = Except.ok out →
      execute validate_input single_job raw_input = ⟨true, some out, none⟩) := by
  refine ⟨?_, ?_, ?_⟩
  · intro e he
    simp [execute, executeT, he]
  · intro v e hv he
    simp [execute, executeT, hv, he]
  · intro v out hv hout
    simp [execute, executeT, hv, hout]

/-- Witness for C4 at concrete jobs: validation failure (single_job not
invoked), run failure, and success. -/
theorem execute_error_containment_witness :
    (execute vWit sWit 0 = ⟨false, none, some "bad input"⟩
      ∧ (executeT vWit sWit 0).2 = false)
    ∧ execute vWit sWit 1 = ⟨false, none, some "boom"⟩
    ∧ execute vWit sWit 2 = ⟨true, some 3, none⟩ :=
  ⟨(execute_error_containment vWit sWit 0).1 "bad input" rfl,
   (execute_error_containment vWit sWit 1).2.1 1 "boom" rfl rfl,
   (execute_error_containment vWit sWit 2).2.2 2 3 rfl rfl⟩

/-- C8: running a resolved range of length zero returns success with the
original input value unchanged. -/
theorem run_pipeline_empty_range (α : Type) (input_data : Option α) :
    run_pipeline ([] : List (Job α)) input_data = ⟨true, input_data, none⟩ := rfl

/-- C5 counterexample: on an empty chain, get_jobs_in_range returns ok []
before checking any supplied name, so an unknown name is not rejected with an
unknown-step error. -/
theorem get_jobs_in_range_empty_chain_ok :
    get_jobs_in_range [] (some "X") (some "Y") = Except.ok [] := rfl

/-- C5 (amended): on an empty chain get_jobs_in_range returns the empty list
regardless of the supplied names; on a non-empty chain it resolves an omitted
start to the first step and an omitted stop to the last step, fails with an
unknown-step error when a supplied name is absent, fails with an invalid-range
error when the resolved start index is after the resolved stop index, and
otherwise returns the inclusive contiguous sub-sequence. -/
theorem get_jobs_in_range_resolution (jobs : List String)
    (start_from stop_after : Option String) (hne : jobs ≠ []) :
    (get_jobs_in_range jobs none none = Except.ok jobs)
    ∧ (∀ n, start_from = some n → n ∉ jobs →
        get_jobs_in_range jobs start_from stop_after =
          Except.error (RangeError.unknownStep n))
    ∧ (∀ i m, resolveStart jobs start_from = Except.ok i → stop_after = some m →
        m ∉ jobs →
        get_jobs_in_range jobs start_from stop_after =
          Except.error (RangeError.unknownStep m))
    ∧ (∀ i j, resolveStart jobs start_from = Except.ok i →
        resolveStop jobs stop_after = Except.ok j →
        (j < i → get_jobs_in_range jobs start_from stop_after =
            Except.error (RangeError.invalidRange i j))
        ∧ (i ≤ j → get_jobs_in_range jobs start_from stop_after =
            Except.ok ((jobs.drop i).take (j + 1 - i))))
    ∧ (∀ sf sa, get_jobs_in_range ([] : List String) sf sa = Except.ok []) := by
  have hlen : 1 ≤ jobs.length := by
    cases jobs with
    | nil => exact absurd rfl hne
    | cons a l => simp
  refine ⟨?_, ?_, ?_, ?_, ?_⟩
  · have hgt : ¬(0 > jobs.length - 1) := by omega
    have harith : jobs.length - 1 + 1 - 0 = jobs.length := by omega
    simp only [get_jobs_in_range, resolveStart, resolveStop, if_neg hne, if_neg hgt,
      harith]
    simp
  · intro n hn hmem
    subst hn
    have hidx : resolveStart jobs (some n) =
        Except.error (RangeError.unknownStep n) := by
      simp [resolveStart, get_job_index, hmem]
    simp only [get_jobs_in_range, if_neg hne, hidx]
  · intro i m hi hm hmem
    subst hm
    have hidx : resolveStop jobs (some m) =
        Except.error (RangeError.unknownStep m) := by
      simp [resolveStop, get_job_index, hmem]
    simp only [get_jobs_in_range, if_neg hne, hi, hidx]
  · intro i j hi hj
    refine ⟨?_, ?_⟩
    · intro hlt
      simp only [get_jobs_in_range, if_neg hne, hi, hj]
      rw [if_pos (by omega : i > j)]
    · intro hle
      simp only [get_jobs_in_range, if_neg hne, hi, hj]
      rw [if_neg (by omega : ¬ i > j)]
  · intro sf sa
    rfl

/-- Witness for C5 (amended) on the chain [A, B, C]. -/
theorem get_jobs_in_range_resolution_witness :
    get_jobs_in_range ["A", "B", "C"] none none = Except.ok ["A", "B", "C"]
    ∧ get_jobs_in_range ["A", "B", "C"] (some "X") none =
        Except.error (RangeError.unknownStep "X")
    ∧ get_jobs_in_range ["A", "B", "C"] (some "B") (some "X") =
        Except.error (RangeError.unknownStep "X")
    ∧ get_jobs_in_range ["A", "B", "C"] (some "B") (some "A") =
        Except.error (RangeError.invalidRange 1 0)
    ∧ get_jobs_in_range ["A", "B", "C"] (some "B") (some "C") =
        Except.ok ["B", "C"] :=
  ⟨(get_jobs_in_range_resolution ["A", "B", "C"] none none (by decide)).1,
   (get_jobs_in_range_resolution ["A", "B", "C"] (some "X") none
      (by decide)).2.1 "X" rfl (by decide),
   (get_jobs_in_range_resolution ["A", "B", "C"] (some "B") (some "X")
      (by decide)).2.2.1 1 "X" rfl rfl (by decide),
   ((get_jobs_in_range_resolution ["A", "B", "C"] (some "B") (some "A")
      (by decide)).2.2.2.1 1 0 rfl rfl).1 (by decide),
   ((get_jobs_in_range_resolution ["A", "B", "C"] (some "B") (some "C")
      (by decide)).2.2.2.1 1 2 rfl rfl).2 (by decide)⟩

/-- The loop result does not depend on the incoming `result` variable when at
least one step remains. -/
theorem runJobsT_last_irrel (jobs : List (Job α)) (hne : jobs ≠ []) (cur : Option α)
    (l1 l2 : JobResult α) (idx : Nat) :
    runJobsT jobs cur l1 idx = runJobsT jobs cur l2 idx := by
  cases jobs with
  | nil => exact absurd rfl hne
  | cons j rest => rfl

/-- Running a succeeding prefix then the remaining steps: the prefix contributes
its indices to the trace and threads its value into the remaining steps. -/
theorem runJobsT_prefix (rest : List (Job α)) (hr : rest ≠ []) :
    ∀ (pre : List (Job α)) (cur cur' : Option α) (last : JobResult α) (idx : Nat),
      threadSteps pre cur = some cur' →
      runJobsT (pre ++ rest) cur last idx =
        ((runJobsT rest cur' last (idx + pre.length)).1,
         (List.range pre.length).map (· + idx) ++
           (runJobsT rest cur' last (idx + pre.length)).2) := by
  intro pre
  induction pre with
  | nil =>
    intro cur cur' last idx h
    simp only [threadSteps, Option.some.injEq] at h
    subst h
    simp
  | cons p ps ih =>
    intro cur cur' last idx h
    simp only [threadSteps] at h
    by_cases hs : (p cur).success = true
    · rw [if_pos hs] at h
      have hstep := ih (p cur).output cur' (p cur) (idx + 1) h
      rw [List.cons_append, runJobsT, if_pos hs, hstep]
      rw [runJobsT_last_irrel rest hr cur' (p cur) last]
      have hidx : idx + 1 + ps.length = idx + (ps.length + 1) := by omega
      rw [hidx]
      have htr : (List.range (ps.length + 1)).map (· + idx) =
          idx :: (List.range ps.length).map (· + (idx + 1)) := by
        rw [List.range_succ_eq_map]
        simp only [List.map_cons, Nat.zero_add, List.map_map]
        refine congrArg (idx :: ·) ?_
        refine List.map_congr_left ?_
        intro a _
        simp only [Function.comp_apply]
        omega
      simp [htr]
    · rw [if_neg hs] at h
      exact absurd h (by simp)

/-- C3: run_pipeline executes the resolved steps in order, threading each
output into the next step; the first failing step's result is returned at once
and no later step runs (the trace is exactly the indices up to the failure);
and when the last step is reached its JobResult is returned. -/
theorem run_pipeline_short_circuits (pre post : List (Job α)) (j : Job α)
    (input_data cur : Option α) (hpre : threadSteps pre input_data = some cur) :
    ((j cur).success = false →
      run_pipeline (pre ++ j :: post) input_data = j cur
      ∧ (run_pipelineT (pre ++ j :: post) input_data).2 = List.range (pre.length + 1))
    ∧ (run_pipeline (pre ++ [j]) input_data = j cur
      ∧ (run_pipelineT (pre ++ [j]) input_data).2 = List.range (pre.length + 1)) := by
  have hmap0 : ∀ n : Nat, (List.range n).map (· + 0) = List.range n := by
    intro n
    simp
  constructor
  · intro hfail
    have hne : pre ++ j :: post ≠ [] := by simp
    have hrun := runJobsT_prefix (j :: post) (by simp) pre input_data cur
      ⟨true, input_data, none⟩ 0 hpre
    have hstep : runJobsT (j :: post) cur (⟨true, input_data, none⟩ : JobResult α)
        (0 + pre.length) = (j cur, [pre.length]) := by
      rw [runJobsT, if_neg (by simp [hfail])]
      simp
    constructor
    · unfold run_pipeline run_pipelineT
      rw [if_neg (by simp : ¬((pre ++ j :: post).isEmpty = true)), hrun, hstep]
    · unfold run_pipelineT
      rw [if_neg (by simp : ¬((pre ++ j :: post).isEmpty = true)), hrun, hstep]
      simp only [hmap0]
      exact (List.range_succ pre.length).symm
  · have hrun := runJobsT_prefix [j] (by simp) pre input_data cur
      ⟨true, input_data, none⟩ 0 hpre
    have hstep : runJobsT [j] cur (⟨true, input_data, none⟩ : JobResult α)
        (0 + pre.length) = (j cur, [pre.length]) := by
      by_cases hs : (j cur).success = true
      · rw [runJobsT, if_pos hs]
        simp [runJobsT]
      · rw [runJobsT, if_neg hs]
        simp
    constructor
    · unfold run_pipeline run_pipelineT
      rw [if_neg (by simp : ¬((pre ++ [j]).isEmpty = true)), hrun, hstep]
    · unfold run_pipelineT
      rw [if_neg (by simp : ¬((pre ++ [j]).isEmpty = true)), hrun, hstep]
      simp only [hmap0]
      exact (List.range_succ pre.length).symm

/-- Witness for C3: a 3-step chain whose step 2 fails returns step 2's failing
result with steps 1 and 2 executed and step 3 never invoked; and a 2-step chain
returns the last step's result. -/
theorem run_pipeline_short_circuits_witness :
    (run_pipeline ([jw1] ++ jw2 :: [jw3]) (some 0) = jw2 (some 1)
      ∧ (run_pipelineT ([jw1] ++ jw2 :: [jw3]) (some 0)).2 = List.range 2)
    ∧ (run_pipeline ([jw1] ++ [jw2]) (some 0) = jw2 (some 1)
      ∧ (run_pipelineT ([jw1] ++ [jw2]) (some 0)).2 = List.range 2) :=
  ⟨(run_pipeline_short_circuits [jw1] [jw3] jw2 (some 0) (some 1) rfl).1 rfl,
   (run_pipeline_short_circuits [jw1] [jw3] jw2 (some 0) (some 1) rfl).2⟩

/-- Witness for C7 at scenario A: limit 2 on priorities [5, 1, 5]. -/
theorem get_pending_ordered_witness :
    c7a.status = InputStatus.pending
    ∧ (get_pending c7db (some 2)).length ≤ 2
    ∧ get_pending c7db (some 2) = [c7a, c7c] :=
  ⟨(get_pending_ordered c7db (some 2)).1.1 c7a (by decide),
   (get_pending_ordered c7db (some 2)).1.2.2 2 rfl (by decide),
   (get_pending_ordered c7db (some 2)).2.1⟩

/-! ## Theorems about the parallel executor -/

/-- Each loop iteration appends one result, bumps exactly one of the two
counters, and records exactly one callback invocation. -/
theorem completeOne_step (file_paths : List String)
    (worker : String → Except String WorkerResult) (rs : List WorkerResult)
    (s f : Nat) (cs : List (Nat × Nat)) (k : Nat) :
    ∃ r : WorkerResult,
      completeOne file_paths worker (rs, s, f, cs) k =
        (rs ++ [r], (if r.success then s + 1 else s), (if r.success then f else f + 1),
         cs ++ [(cs.length + 1, file_paths.length)]) :=
  ⟨_, rfl⟩

/-- Folding the completion loop adds the list length to succeeded + failed and
to the callback count. -/
theorem completeOne_counts (file_paths : List String)
    (worker : String → Except String WorkerResult) (order : List Nat) :
    ∀ (rs : List WorkerResult) (s f : Nat) (cs : List (Nat × Nat)),
      ((order.foldl (completeOne file_paths worker) (rs, s, f, cs)).2.1
        + (order.foldl (completeOne file_paths worker) (rs, s, f, cs)).2.2.1
          = s + f + order.length)
      ∧ (order.foldl (completeOne file_paths worker) (rs, s, f, cs)).2.2.2.length
          = cs.length + order.length := by
  induction order with
  | nil =>
    intro rs s f cs
    simp
  | cons k rest ih =>
    intro rs s f cs
    rw [List.foldl_cons]
    obtain ⟨r, hr⟩ := completeOne_step file_paths worker rs s f cs k
    rw [hr]
    rcases ih (rs ++ [r]) (if r.success then s + 1 else s)
      (if r.success then f else f + 1) (cs ++ [(cs.length + 1, file_paths.length)])
      with ⟨h1, h2⟩
    constructor
    · rw [h1]
      by_cases hsc : r.success = true
      · rw [if_pos hsc, if_pos hsc]
        simp
        omega
      · rw [if_neg hsc, if_neg hsc]
        simp
        omega
    · rw [h2]
      simp
      omega

/-- C2: for every batch (the empty one included) and every completion order of
the submitted futures, succeeded + failed = total, total is the number of input
items, and the progress callback is invoked exactly total times. -/
theorem run_parallel_from_files_invariant (file_paths : List String)
    (worker : String → Except String WorkerResult) (order : List Nat)
    (hperm : order.Perm (List.range file_paths.length)) :
    ((run_parallel_from_files file_paths worker order).1.succeeded
      + (run_parallel_from_files file_paths worker order).1.failed
        = (run_parallel_from_files file_paths worker order).1.total)
    ∧ (run_parallel_from_files file_paths worker order).1.total = file_paths.length
    ∧ (run_parallel_from_files file_paths worker order).2.length
        = (run_parallel_from_files file_paths worker order).1.total := by
  by_cases hemp : file_paths = []
  · subst hemp
    simp [run_parallel_from_files]
  · have hlen : order.length = file_paths.length := by
      have := hperm.length_eq
      simpa using this
    rcases completeOne_counts file_paths worker order [] 0 0 [] with ⟨h1, h2⟩
    simp only [List.length_nil, Nat.zero_add] at h1 h2
    unfold run_parallel_from_files
    rw [if_neg hemp]
    refine ⟨?_, rfl, ?_⟩
    · simp only []
      omega
    · simp only []
      omega

/-- Witness for C2: two items, one worker success and one raised worker
exception, completion order reversed. -/
theorem run_parallel_from_files_invariant_witness :
    ((run_parallel_from_files ["a.txt", "b.txt"] workerWit [1, 0]).1.succeeded
      + (run_parallel_from_files ["a.txt", "b.txt"] workerWit [1, 0]).1.failed
        = (run_parallel_from_files ["a.txt", "b.txt"] workerWit [1, 0]).1.total)
    ∧ (run_parallel_from_files ["a.txt", "b.txt"] workerWit [1, 0]).1.total = 2
    ∧ (run_parallel_from_files ["a.txt", "b.txt"] workerWit [1, 0]).2.length
        = (run_parallel_from_files ["a.txt", "b.txt"] workerWit [1, 0]).1.total :=
  run_parallel_from_files_invariant ["a.txt", "b.txt"] workerWit [1, 0] (by decide)

/-- C1: the claim step is not atomic — get_pending (SELECT) and mark_processing
(UPDATE) are separate operations with no transaction around them. With N = 1
pending item and two concurrent claimers that both run their SELECT before
either marks, both claimers claim item 0 (claimed by two callers, not exactly
one); the pending/processing counts still sum to N. -/
theorem claim_not_atomic_double_claim :
    (0 ∈ raceRun.2.1.selected.getD [] ∧ 0 ∈ raceRun.2.2.selected.getD [])
    ∧ ((raceRun.1.filter fun x => x.status = InputStatus.pending).length = 0
      ∧ (raceRun.1.filter fun x => x.status = InputStatus.processing).length = 1
      ∧ (find_by_id raceRun.1 0).bind (·.started_at) = some 4) := by
  decide

/-! ## Theorems about the finalize path -/

/-- C6 counterexample: on an id with no row, _update_input_status raises
DoesNotExist out of get_by_id — it neither fails silently nor merely logs. -/
theorem update_input_status_missing_raises :
    update_input_status [] 1 true none 5 = Except.error "PipelineInputDoesNotExist" := rfl

/-- Lookup by id commutes with mapping an id-preserving row transformer. -/
theorem find_map_pres (db : List PipelineInput) (g : PipelineInput → PipelineInput)
    (hid : ∀ x, (g x).id = x.id) (j : Nat) :
    find_by_id (db.map g) j = (find_by_id db j).map g := by
  unfold find_by_id
  rw [List.find?_map]
  have hp : ((fun x => decide (x.id = j)) ∘ g) = fun x => decide (x.id = j) := by
    funext x
    simp [Function.comp, hid]
  rw [hp]

/-- The row found by id has that id. -/
theorem find_by_id_some_id (db : List PipelineInput) (j : Nat) (z : PipelineInput)
    (h : find_by_id db j = some z) : z.id = j := by
  unfold find_by_id at h
  have := List.find?_some h
  simpa using this

/-- The finalize row transformer preserves ids. -/
theorem updRow_id (input_id : Nat) (success : Bool) (error : Option String) (t : Nat)
    (x : PipelineInput) : (updRow input_id success error t x).id = x.id := by
  unfold updRow mark_completed mark_failed
  by_cases h : x.id = input_id
  · rw [if_pos h]
    cases success <;> simp
  · rw [if_neg h]

/-- The mark_processing row transformer preserves ids. -/
theorem markRow_id (i t : Nat) (x : PipelineInput) : (markRow i t x).id = x.id := by
  unfold markRow
  by_cases h : x.id = i
  · rw [if_pos h]
  · rw [if_neg h]

/-- C6 (amended): when a row with the id exists, the finalize update sets
status completed with completed_at, or failed with completed_at and the error
message (defaulting to "Unknown error" when absent or empty), according to the
worker outcome, and leaves every other row unchanged; but when no row has the
id, the DoesNotExist raised by get_by_id propagates to the caller instead of
failing silently or logging. -/
theorem update_input_status_spec (db : List PipelineInput) (input_id : Nat)
    (success : Bool) (error : Option String) (t : Nat) :
    (find_by_id db input_id = none →
      update_input_status db input_id success error t =
        Except.error "PipelineInputDoesNotExist")
    ∧ (∀ x, find_by_id db input_id = some x →
        update_input_status db input_id success error t =
          Except.ok (db.map (updRow input_id success error t))
        ∧ find_by_id (db.map (updRow input_id success error t)) input_id =
            some (if success then mark_completed x t
              else mark_failed x (errorOrUnknown error) t)
        ∧ ∀ j, j ≠ input_id →
            find_by_id (db.map (updRow input_id success error t)) j = find_by_id db j) := by
  constructor
  · intro hnone
    have hany : (db.any fun x => x.id = input_id) = false := by
      rw [List.any_eq_false]
      intro x hx
      unfold find_by_id at hnone
      rw [List.find?_eq_none] at hnone
      exact hnone x hx
    simp [update_input_status, hany]
  · intro x hx
    have hany : (db.any fun z => z.id = input_id) = true := by
      rw [List.any_eq_true]
      unfold find_by_id at hx
      have hmem := List.mem_of_find?_eq_some hx
      have hpx := List.find?_some hx
      exact ⟨x, hmem, hpx⟩
    refine ⟨by simp [update_input_status, hany], ?_, ?_⟩
    · rw [find_map_pres db (updRow input_id success error t)
        (updRow_id input_id success error t) input_id, hx]
      simp only [Option.map_some']
      unfold updRow
      rw [if_pos (find_by_id_some_id db input_id x hx)]
    · intro j hj
      rw [find_map_pres db (updRow input_id success error t)
        (updRow_id input_id success error t) j]
      cases hf : find_by_id db j with
      | none => simp
      | some z =>
        have hzj := find_by_id_some_id db j z hf
        simp only [Option.map_some']
        unfold updRow
        rw [if_neg (by rw [hzj]; exact hj)]

/-- Witness for C6 (amended): a missing id raises; a present id is marked
failed with the "Unknown error" default, other ids untouched. -/
theorem update_input_status_spec_witness :
    update_input_status [] 3 true none 5 = Except.error "PipelineInputDoesNotExist"
    ∧ update_input_status [itemW] 7 false (some "") 9 =
        Except.ok ([itemW].map (updRow 7 false (some "") 9))
    ∧ find_by_id ([itemW].map (updRow 7 false (some "") 9)) 7 =
        some (mark_failed itemW "Unknown error" 9)
    ∧ find_by_id ([itemW].map (updRow 7 false (some "") 9)) 8 = find_by_id [itemW] 8 :=
  ⟨(update_input_status_spec [] 3 true none 5).1 rfl,
   ((update_input_status_spec [itemW] 7 false (some "") 9).2 itemW rfl).1,
   ((update_input_status_spec [itemW] 7 false (some "") 9).2 itemW rfl).2.1,
   ((update_input_status_spec [itemW] 7 false (some "") 9).2 itemW rfl).2.2 8 (by decide)⟩

/-! ## Theorems about the queue-sourced batch (claim, map, finalize) -/

/-- Characterization of statusOf after one mark_processing. -/
theorem statusOf_mark_proc (db : List PipelineInput) (i t j : Nat) :
    statusOf (mark_processing db i t) j =
      if j = i then (statusOf db j).map (fun _ => InputStatus.processing)
      else statusOf db j := by
  unfold statusOf mark_processing
  rw [find_map_pres db _ (markRow_id i t) j]
  cases hf : find_by_id db j with
  | none => by_cases hji : j = i <;> simp [hji]
  | some z =>
    have hzj := find_by_id_some_id db j z hf
    by_cases hji : j = i
    · simp only [Option.map_some', if_pos hji]
      unfold markRow
      rw [if_pos (by rw [hzj, hji])]
    · simp only [Option.map_some', if_neg hji]
      unfold markRow
      rw [if_neg (by rw [hzj]; exact hji)]

/-- A row already processing stays processing through any further mark. -/
theorem mark_keeps_processing (db : List PipelineInput) (k t i : Nat)
    (h : statusOf db i = some InputStatus.processing) :
    statusOf (mark_processing db k t) i = some InputStatus.processing := by
  rw [statusOf_mark_proc]
  by_cases hik : i = k
  · rw [if_pos hik, h]
    rfl
  · rw [if_neg hik]
    exact h

/-- A row already processing stays processing through the whole marking loop. -/
theorem mark_all_keeps_processing (pending : List PipelineInput) :
    ∀ (db : List PipelineInput) (t i : Nat),
      statusOf db i = some InputStatus.processing →
      statusOf (mark_all_processing db pending t) i = some InputStatus.processing := by
  induction pending with
  | nil => intro db t i h; exact h
  | cons p ps ih =>
    intro db t i h
    exact ih (mark_processing db p.id t) t i (mark_keeps_processing db p.id t i h)

/-- Membership of a row makes its id findable. -/
theorem find_by_id_isSome_of_mem (db : List PipelineInput) (x : PipelineInput)
    (hx : x ∈ db) : (find_by_id db x.id).isSome = true := by
  unfold find_by_id
  rw [List.find?_isSome]
  exact ⟨x, hx, by simp⟩

/-- Every selected pending item is processing after the marking loop. -/
theorem statusOf_mark_all (pending : List PipelineInput) :
    ∀ (db : List PipelineInput) (t : Nat) (x : PipelineInput),
      x ∈ pending → (find_by_id db x.id).isSome = true →
      statusOf (mark_all_processing db pending t) x.id = some InputStatus.processing := by
  induction pending with
  | nil => intro db t x hx _; cases hx
  | cons p ps ih =>
    intro db t x hx hpres
    rcases List.mem_cons.mp hx with h1 | h2
    · subst h1
      have hafter : statusOf (mark_processing db x.id t) x.id =
          some InputStatus.processing := by
        rw [statusOf_mark_proc, if_pos rfl]
        unfold statusOf
        cases hf : find_by_id db x.id with
        | none =>
          rw [hf] at hpres
          cases hpres
        | some z => simp
      exact mark_all_keeps_processing ps (mark_processing db x.id t) t x.id hafter
    · have hpres2 : (find_by_id (mark_processing db p.id t) x.id).isSome = true := by
        unfold mark_processing
        rw [find_map_pres db _ (markRow_id p.id t) x.id]
        cases hf : find_by_id db x.id with
        | none =>
          rw [hf] at hpres
          cases hpres
        | some z => rfl
      exact ih (mark_processing db p.id t) t x h2 hpres2

/-- Selected pending items come from the database. -/
theorem get_pending_subset (db : List PipelineInput) (limit : Option Nat) :
    ∀ x ∈ get_pending db limit, x ∈ db := by
  intro x hx
  unfold get_pending at hx
  have hq : ∀ y, y ∈ List.insertionSort pendingOrder
      (db.filter fun z => z.status = InputStatus.pending) → y ∈ db := by
    intro y hy
    exact List.mem_of_mem_filter ((List.perm_insertionSort pendingOrder _).mem_iff.mp hy)
  cases limit with
  | none => exact hq x hx
  | some l =>
    by_cases h0 : l = 0
    · simp only [h0, if_pos rfl] at hx
      exact hq x hx
    · simp only [if_neg h0] at hx
      exact hq x (List.mem_of_mem_take hx)

/-- Unique row ids survive selection. -/
theorem get_pending_id_nodup (db : List PipelineInput) (limit : Option Nat)
    (hnd : (db.map (·.id)).Nodup) :
    ((get_pending db limit).map (·.id)).Nodup := by
  have hfil : ((db.filter fun z => z.status = InputStatus.pending).map (·.id)).Nodup :=
    List.Nodup.sublist (List.Sublist.map _ (List.filter_sublist db)) hnd
  have hperm : List.Perm
      ((List.insertionSort pendingOrder
        (db.filter fun z => z.status = InputStatus.pending)).map (·.id))
      ((db.filter fun z => z.status = InputStatus.pending).map (·.id)) :=
    (List.perm_insertionSort pendingOrder _).map _
  have hsortnd : ((List.insertionSort pendingOrder
      (db.filter fun z => z.status = InputStatus.pending)).map (·.id)).Nodup :=
    hperm.nodup_iff.mpr hfil
  unfold get_pending
  cases limit with
  | none => exact hsortnd
  | some l =>
    by_cases h0 : l = 0
    · simp only [h0, if_pos rfl]
      exact hsortnd
    · simp only [if_neg h0]
      exact List.Nodup.sublist (List.Sublist.map _ (List.take_sublist _ _)) hsortnd

/-- A successful lookup is an entry of the dict. -/
theorem map_get_entry (m : List (String × Nat)) (k : String) (v : Nat)
    (h : map_get m k = some v) : (k, v) ∈ m := by
  unfold map_get at h
  cases hf : m.find? (fun q => q.1 = k) with
  | none =>
    rw [hf] at h
    cases h
  | some q =>
    rw [hf] at h
    have hq1 : q.1 = k := by
      have := List.find?_some hf
      simpa using this
    have hmem := List.mem_of_find?_eq_some hf
    have hq2 : q.2 = v := by simpa using h
    have hq : q = (k, v) := by
      cases q with
      | mk a b => simp_all
    rw [← hq]
    exact hmem

/-- Entries of the input_map fold come from the accumulator or from the list. -/
theorem build_fold_mem (pending : List PipelineInput) :
    ∀ (m0 : List (String × Nat)) (kv : String × Nat),
      kv ∈ pending.foldl (fun m p => (p.file_path, p.id) :: m) m0 →
      kv ∈ m0 ∨ ∃ p ∈ pending, kv = (p.file_path, p.id) := by
  induction pending with
  | nil => intro m0 kv h; exact Or.inl h
  | cons q qs ih =>
    intro m0 kv h
    rw [List.foldl_cons] at h
    rcases ih ((q.file_path, q.id) :: m0) kv h with h1 | h2
    · rcases List.mem_cons.mp h1 with h3 | h4
      · exact Or.inr ⟨q, List.mem_cons_self q qs, h3⟩
      · exact Or.inl h4
    · obtain ⟨p, hp, hkv⟩ := h2
      exact Or.inr ⟨p, List.mem_cons_of_mem q hp, hkv⟩

/-- Entries of the input_map come from the pending batch. -/
theorem build_input_map_mem (pending : List PipelineInput) (kv : String × Nat)
    (h : kv ∈ build_input_map pending) :
    ∃ p ∈ pending, kv = (p.file_path, p.id) := by
  rcases build_fold_mem pending [] kv h with h1 | h2
  · cases h1
  · exact h2

/-- A key present in the dict stays present after one more insertion. -/
theorem map_get_cons_pres (m : List (String × Nat)) (e : String × Nat) (k : String)
    (h : ∃ v, map_get m k = some v) : ∃ v, map_get (e :: m) k = some v := by
  obtain ⟨v, hv⟩ := h
  unfold map_get at *
  by_cases he : e.1 = k
  · refine ⟨e.2, ?_⟩
    rw [List.find?_cons_of_pos _ (by simpa using he)]
    rfl
  · refine ⟨v, ?_⟩
    rw [List.find?_cons_of_neg _ (by simpa using he)]
    exact hv

/-- A key present in the accumulator stays present through the whole fold. -/
theorem map_get_fold_pres (pending : List PipelineInput) :
    ∀ (m0 : List (String × Nat)) (k : String),
      (∃ v, map_get m0 k = some v) →
      ∃ v, map_get (pending.foldl (fun m p => (p.file_path, p.id) :: m) m0) k = some v := by
  induction pending with
  | nil => intro m0 k h; exact h
  | cons q qs ih =>
    intro m0 k h
    rw [List.foldl_cons]
    exact ih _ k (map_get_cons_pres m0 (q.file_path, q.id) k h)

/-- Every pending item's file path gets an entry in the fold. -/
theorem map_get_fold_some (pending : List PipelineInput) :
    ∀ (m0 : List (String × Nat)) (x : PipelineInput), x ∈ pending →
      ∃ v, map_get (pending.foldl (fun m p => (p.file_path, p.id) :: m) m0)
        x.file_path = some v := by
  induction pending with
  | nil => intro m0 x hx; cases hx
  | cons q qs ih =>
    intro m0 x hx
    rw [List.foldl_cons]
    rcases List.mem_cons.mp hx with h1 | h2
    · refine map_get_fold_pres qs _ x.file_path ⟨q.id, ?_⟩
      unfold map_get
      rw [List.find?_cons_of_pos _ (by rw [h1]; simp)]
      rfl
    · exact ih _ x h2

/-- Every pending item's file path is a key of the input_map. -/
theorem map_get_build_some (pending : List PipelineInput) (x : PipelineInput)
    (hx : x ∈ pending) :
    ∃ v, map_get (build_input_map pending) x.file_path = some v :=
  map_get_fold_some pending [] x hx

/-- Shape of a successful status update. -/
theorem update_ok_shape (db : List PipelineInput) (input_id : Nat) (success : Bool)
    (error : Option String) (t : Nat) (db2 : List PipelineInput)
    (h : update_input_status db input_id success error t = Except.ok db2) :
    db2 = db.map (updRow input_id success error t) := by
  unfold update_input_status at h
  by_cases hany : (db.any fun x => x.id = input_id) = true
  · rw [if_pos hany] at h
    exact (Except.ok.inj h).symm
  · rw [if_neg hany] at h
    cases h

/-- A successful status update leaves every other id's status unchanged. -/
theorem statusOf_update_other (db : List PipelineInput) (input_id : Nat)
    (success : Bool) (error : Option String) (t : Nat) (db2 : List PipelineInput)
    (j : Nat) (h : update_input_status db input_id success error t = Except.ok db2)
    (hj : j ≠ input_id) : statusOf db2 j = statusOf db j := by
  rw [update_ok_shape db input_id success error t db2 h]
  unfold statusOf
  rw [find_map_pres db _ (updRow_id input_id success error t) j]
  cases hf : find_by_id db j with
  | none => simp
  | some z =>
    have hzj := find_by_id_some_id db j z hf
    simp only [Option.map_some']
    unfold updRow
    rw [if_neg (by rw [hzj]; exact hj)]

/-- An id that no key of the input_map resolves to keeps its status through the
whole finalize pass. -/
theorem finalize_preserves (results : List WorkerResult) :
    ∀ (db : List PipelineInput) (m : List (String × Nat)) (t z : Nat)
      (db2 : List PipelineInput),
      (∀ k, map_get m k ≠ some z) →
      finalize_results db m results t = Except.ok db2 →
      statusOf db2 z = statusOf db z := by
  induction results with
  | nil =>
    intro db m t z db2 hz h
    unfold finalize_results at h
    rw [List.foldlM_nil] at h
    have h2 : Except.ok db = Except.ok db2 := h
    rw [← Except.ok.inj h2]
  | cons r rs ih =>
    intro db m t z db2 hz h
    unfold finalize_results at h
    rw [List.foldlM_cons] at h
    cases hstep : finalizeStep m t db r with
    | error e =>
      rw [hstep] at h
      have h2 : (Except.error e : Except String (List PipelineInput)) = Except.ok db2 := h
      exact Except.noConfusion h2
    | ok d1 =>
      rw [hstep] at h
      have h2 : finalize_results d1 m rs t = Except.ok db2 := h
      have hz1 : statusOf d1 z = statusOf db z := by
        unfold finalizeStep at hstep
        cases hmg : map_get m r.file_path with
        | none =>
          rw [hmg] at hstep
          rw [← Except.ok.inj hstep]
        | some input_id =>
          rw [hmg] at hstep
          have hne : z ≠ input_id := by
            intro he
            exact hz r.file_path (by rw [hmg, he])
          exact statusOf_update_other db input_id r.success r.error t d1 z hstep hne
      rw [ih d1 m t z db2 hz h2, hz1]

/-- C9: two claimed pending items with equal file_path strings are both marked
processing before dispatch, but the finalization map keyed by file path retains
only one of their ids, so after any finalize pass that completes, at most one
of the two is transitioned to completed or failed — the other is still in
processing when the batch returns. -/
theorem duplicate_path_item_stuck (db pending : List PipelineInput)
    (limit : Option Nat) (t : Nat) (x y : PipelineInput)
    (hpend : pending = get_pending db limit)
    (hnd : (db.map (·.id)).Nodup)
    (hx : x ∈ pending) (hy : y ∈ pending)
    (hfp : x.file_path = y.file_path) (hid : x.id ≠ y.id) :
    (statusOf (mark_all_processing db pending t) x.id = some InputStatus.processing
      ∧ statusOf (mark_all_processing db pending t) y.id = some InputStatus.processing)
    ∧ ¬(map_get (build_input_map pending) x.file_path = some x.id
        ∧ map_get (build_input_map pending) x.file_path = some y.id)
    ∧ (∀ (results : List WorkerResult) (t2 : Nat) (db2 : List PipelineInput),
        finalize_results (mark_all_processing db pending t) (build_input_map pending)
          results t2 = Except.ok db2 →
        statusOf db2 x.id = some InputStatus.processing
        ∨ statusOf db2 y.id = some InputStatus.processing) := by
  have hxdb : x ∈ db := get_pending_subset db limit x (by rw [← hpend]; exact hx)
  have hydb : y ∈ db := get_pending_subset db limit y (by rw [← hpend]; exact hy)
  have hpnd : (pending.map (·.id)).Nodup := by
    rw [hpend]
    exact get_pending_id_nodup db limit hnd
  have hxs := statusOf_mark_all pending db t x hx (find_by_id_isSome_of_mem db x hxdb)
  have hys := statusOf_mark_all pending db t y hy (find_by_id_isSome_of_mem db y hydb)
  refine ⟨⟨hxs, hys⟩, ?_, ?_⟩
  · rintro ⟨h1, h2⟩
    rw [h1] at h2
    exact hid (Option.some.inj h2)
  · intro results t2 db2 hfin
    obtain ⟨v, hv⟩ := map_get_build_some pending x hx
    by_cases hvx : v = x.id
    · refine Or.inr ?_
      have hky : ∀ k, map_get (build_input_map pending) k ≠ some y.id := by
        intro k hk
        obtain ⟨p, hp, hpe⟩ :=
          build_input_map_mem pending (k, y.id) (map_get_entry _ k y.id hk)
        have hpk : p.file_path = k := (congrArg Prod.fst hpe).symm
        have hpid : p.id = y.id := (congrArg Prod.snd hpe).symm
        have hpy : p = y := List.inj_on_of_nodup_map hpnd hp hy hpid
        rw [← hpk, hpy, ← hfp, hv] at hk
        have hvy : v = y.id := Option.some.inj hk
        rw [hvx] at hvy
        exact hid hvy
      rw [finalize_preserves results _ _ t2 y.id db2 hky hfin]
      exact hys
    · refine Or.inl ?_
      have hkx : ∀ k, map_get (build_input_map pending) k ≠ some x.id := by
        intro k hk
        obtain ⟨p, hp, hpe⟩ :=
          build_input_map_mem pending (k, x.id) (map_get_entry _ k x.id hk)
        have hpk : p.file_path = k := (congrArg Prod.fst hpe).symm
        have hpid : p.id = x.id := (congrArg Prod.snd hpe).symm
        have hpx2 : p = x := List.inj_on_of_nodup_map hpnd hp hx hpid
        rw [← hpk, hpx2, hv] at hk
        exact hvx (Option.some.inj hk)
      rw [finalize_preserves results _ _ t2 x.id db2 hkx hfin]
      exact hxs

/-- Witness for C9: two pending items sharing "same.txt"; both batch results
succeed, yet after the run one of the two items is still processing. -/
theorem duplicate_path_item_stuck_witness :
    statusOf dupDb2 1 = some InputStatus.processing
    ∨ statusOf dupDb2 2 = some InputStatus.processing :=
  (duplicate_path_item_stuck dupDb (get_pending dupDb none) none 10 dupA dupB rfl
    (by decide) (by decide) (by decide) rfl (by decide)).2.2 dupResults 20 dupDb2 rfl
